import Mathlib

/-!
Shallow embedding of `src/vortex/networks/modules/backbones/efficientnet.py`.

Conventions used throughout:
* Python `int` is modelled by `ℤ`, Python `float` by `ℚ` (all the float
  computations relevant here — depth multipliers, drop-path rates, padding
  arithmetic — stay well inside the range where binary floating point and
  exact rational arithmetic agree on the comparisons performed).
* Python floor division `//` is `Int.fdiv`; `math.ceil` on a true division is
  `Int.ceil` of the rational quotient; Python 3 `round` (round half to even)
  is `pyRound` below.
* Code that can raise (`assert`, `KeyError`, `IndexError`, `RuntimeError`)
  is modelled with `Option`, `none` standing for any raised exception.
-/

/-! ### Padding resolver: `get_padding` (efficientnet.py lines 54-74) -/

/-- The `padding` argument of `get_padding` is either a number or a string. -/
inductive PaddingArg where
  | num (n : ℤ)
  | str (s : String)
  deriving DecidableEq

/-- Embedding of `get_padding(padding, kernel_size, stride, dilation)`
(lines 54-74): resolves a padding mode to a concrete pad amount and a
dynamic-padding flag. -/
def get_padding (padding : PaddingArg) (kernel_size stride dilation : ℤ) : ℤ × Bool :=
  match padding with
  | .num n => (n, false)
  | .str s =>
      let sl := s.toLower
      if sl = "same" then
        if stride = 1 ∧ (dilation * (kernel_size - 1)) % 2 = 0 then
          (Int.fdiv ((stride - 1) + dilation * (kernel_size - 1)) 2, false)
        else
          (0, true)
      else if sl = "valid" then
        (0, false)
      else
        (Int.fdiv ((stride - 1) + dilation * (kernel_size - 1)) 2, false)

/-- Embedding of `get_same_padding(x, k, s, d)` (lines 90-95):
`max((ceil(x / s) - 1) * s + (k - 1) * d + 1 - x, 0)`. -/
def get_same_padding (x k s d : ℤ) : ℤ :=
  max ((⌈(x : ℚ) / (s : ℚ)⌉ - 1) * s + (k - 1) * d + 1 - x) 0

/-- The per-axis (leading, trailing) pad amounts applied by `pad_same`
(lines 98-106): `F.pad` receives `[pad // 2, pad - pad // 2]` for each axis. -/
def pad_same_lr (x k s d : ℤ) : ℤ × ℤ :=
  let pad := get_same_padding x k s d
  (Int.fdiv pad 2, pad - Int.fdiv pad 2)

/-! ### Depth scaler: `EfficientNet._scale_stage_depth` (lines 421-436) -/

/-- Python 3 `round`: round to nearest integer, ties to even. -/
def pyRound (q : ℚ) : ℤ :=
  if q - ⌊q⌋ < 1/2 then ⌊q⌋
  else if 1/2 < q - ⌊q⌋ then ⌊q⌋ + 1
  else if ⌊q⌋ % 2 = 0 then ⌊q⌋ else ⌊q⌋ + 1

/-- The `for r in reversed(repeats)` loop of `_scale_stage_depth`
(lines 426-430), processing the already-reversed repeat list with the running
`num_repeat` and `num_repeat_scaled` counters as extra state:
`rs = max(1, round(r / num_repeat * num_repeat_scaled))`, then both counters
are decremented. -/
def scaleLoopRev : List ℤ → ℤ → ℤ → List ℤ
  | [], _, _ => []
  | r :: rest, n, m =>
      let rs := max 1 (pyRound ((r : ℚ) / (n : ℚ) * (m : ℚ)))
      rs :: scaleLoopRev rest (n - r) (m - rs)

/-- The scaled repeat list `repeats_scaled` computed by `_scale_stage_depth`
(lines 422-431): `num_repeat = sum(repeats)`,
`num_repeat_scaled = int(math.ceil(num_repeat * depth_multiplier))`, then the
reversed greedy loop, reversed back. -/
def _scale_stage_depth_repeats (repeats : List ℤ) (d : ℚ) : List ℤ :=
  let num_repeat := repeats.sum
  let num_repeat_scaled := ⌈(num_repeat : ℚ) * d⌉
  (scaleLoopRev repeats.reverse num_repeat num_repeat_scaled).reverse

/-! ### Channel rounder -/

/-- Modelled from the spec: `make_divisible` and `round_channels` live in
`vortex/networks/modules/utils/arch_utils.py`, which is not part of this
source tree (only imported at line 11).  Spec section 4.2: "scale channel by
multiplier, then round to nearest multiple of divisor subject to not dropping
below 90% of the unrounded scaled value (round up to next divisor multiple if
the rounding would remove more than 10%), and never below `min_value`
(default = divisor)". -/
def make_divisible (v : ℚ) (divisor : ℤ) (min_value : Option ℤ) : ℤ :=
  let mv := min_value.getD divisor
  let new_v := max mv ((Int.fdiv ⌊v + (divisor : ℚ) / 2⌋ divisor) * divisor)
  if (new_v : ℚ) < (9/10) * v then new_v + divisor else new_v

/-- Modelled from the spec: `round_channels(channel, multiplier, divisor,
channel_min)` scales the channel count by the multiplier and rounds the result
with `make_divisible` (spec section 4.2). -/
def round_channels (channel : ℤ) (multiplier : ℚ) (divisor : ℤ) (channel_min : Option ℤ) : ℤ :=
  make_divisible ((channel : ℚ) * multiplier) divisor channel_min

/-! ### Stage-string decoder: `EfficientNet._decode_str_def` (lines 394-419) -/

/-- Python `str.split(sep)` for a single-character separator, on `List Char`. -/
def splitOnChar (sep : Char) : List Char → List (List Char)
  | [] => [[]]
  | c :: rest =>
      match splitOnChar sep rest with
      | [] => if c = sep then [[], []] else [[c]]
      | t :: ts => if c = sep then [] :: t :: ts else (c :: t) :: ts

/-- The effect of `re.split(r'(\d.*)', op)` (line 413): split a token at its
first digit into (key, value); the value runs from the first digit to the end
of the token.  A token with no digit yields an empty value, which makes the
`assert len(s) >= 2` on line 414 fail. -/
def firstDigitSplit : List Char → List Char × List Char
  | [] => ([], [])
  | c :: rest =>
      if c.isDigit then ([], c :: rest)
      else
        let p := firstDigitSplit rest
        (c :: p.1, p.2)

/-- Numeric value of a digit list, most significant first. -/
def digitsVal (l : List Char) : ℤ :=
  l.foldl (fun acc c => acc * 10 + ((c.toNat : ℤ) - 48)) 0

/-- Python `int(s)` on the value substrings produced by `firstDigitSplit`
(they always start with a digit): succeeds exactly on all-digit strings.
(Python `int` also tolerates surrounding whitespace, which cannot occur here
because tokens are split on `_` and keys absorb every char before the first
digit.) -/
def parseInt (l : List Char) : Option ℤ :=
  if l ≠ [] ∧ l.all Char.isDigit then some (digitsVal l) else none

/-- Python `float(s)` on the value substrings produced by `firstDigitSplit`:
modelled for the digit forms `d+` and `d+.d*` that such values can take. -/
def parseFloat (l : List Char) : Option ℚ :=
  match splitOnChar '.' l with
  | [ip] => (parseInt ip).map (fun n => (n : ℚ))
  | [ip, fp] =>
      if ip ≠ [] ∧ ip.all Char.isDigit ∧ fp.all Char.isDigit then
        some ((digitsVal ip : ℚ) + (digitsVal fp : ℚ) / ((10 : ℚ) ^ fp.length))
      else none
  | _ => none

/-- The `args` dict built by `_decode_str_def` (lines 407-417): field
`repeat'` is the `'repeat'` key (`r`), the remaining fields match the
`args_map` on lines 397-405 plus the `noskip` flag and the leading
`block_type` token. -/
structure BlockArgs where
  block_type : String
  repeat' : Option ℤ := none
  kernel_size : Option ℤ := none
  stride : Option ℤ := none
  exp_ratio : Option ℚ := none
  mid_channel : Option ℤ := none
  out_channel : Option ℤ := none
  se_ratio : Option ℚ := none
  noskip : Bool := false
  deriving DecidableEq

/-- One iteration of the `for op in stage_data[1:]` loop (lines 409-416):
`noskip` is the only bare flag, every other token is split at its first digit
into a key (looked up in `args_map`, `KeyError` = `none` for unknown keys) and
a value (cast with `int`/`float`). -/
def applyToken (a : BlockArgs) (t : List Char) : Option BlockArgs :=
  if t = "noskip".toList then some { a with noskip := true }
  else
    let key := (firstDigitSplit t).1
    let val := (firstDigitSplit t).2
    if val = [] then none
    else if key = "r".toList then (parseInt val).map (fun v => { a with repeat' := some v })
    else if key = "k".toList then (parseInt val).map (fun v => { a with kernel_size := some v })
    else if key = "s".toList then (parseInt val).map (fun v => { a with stride := some v })
    else if key = "e".toList then (parseFloat val).map (fun v => { a with exp_ratio := some v })
    else if key = "m".toList then (parseInt val).map (fun v => { a with mid_channel := some v })
    else if key = "c".toList then (parseInt val).map (fun v => { a with out_channel := some v })
    else if key = "se".toList then (parseFloat val).map (fun v => { a with se_ratio := some v })
    else none

/-- The whole token loop of `_decode_str_def`, threading the `args` dict. -/
def applyTokens : BlockArgs → List (List Char) → Option BlockArgs
  | a, [] => some a
  | a, t :: ts =>
      match applyToken a t with
      | none => none
      | some a2 => applyTokens a2 ts

/-- Embedding of `EfficientNet._decode_str_def(stage_str)` (lines 394-419):
split on `_`, the first token is the block type, the rest are parsed by the
token loop, and the final `assert 'repeat' in args` (line 418) rejects any
result without a repeat count. -/
def _decode_str_def (stage_str : String) : Option BlockArgs :=
  match splitOnChar '_' stage_str.data with
  | [] => none
  | bt :: ops =>
      match applyTokens { block_type := String.mk bt } ops with
      | none => none
      | some a => if (BlockArgs.repeat' a).isSome then some a else none

/-! ### Stage decoding and depth scaling: `_decode_block_def` (lines 381-392) -/

/-- The `arg.pop('repeat')` on line 388: removes the repeat key from a decoded
spec and returns its value (`KeyError` = `none` if absent, which cannot happen
for specs produced by `_decode_str_def`). -/
def popRepeat (a : BlockArgs) : Option (BlockArgs × ℤ) :=
  (BlockArgs.repeat' a).map (fun r => ({ a with repeat' := none }, r))

/-- Embedding of `EfficientNet._scale_stage_depth(stage_args, repeats)`
(lines 421-436): computes the scaled repeat list and then replicates each
substage spec `rs` times (`range(rep)` is empty for `rep <= 0`). -/
def _scale_stage_depth (stage_args : List BlockArgs) (repeats : List ℤ) (d : ℚ) : List BlockArgs :=
  let repeats_scaled := _scale_stage_depth_repeats repeats d
  ((stage_args.zip repeats_scaled).map (fun p => List.replicate p.2.toNat p.1)).flatten

/-- The `for idx, stage_strings in enumerate(block_def)` loop of
`_decode_block_def` (lines 385-391), carrying the running stage index and the
total stage count. -/
def decodeBlockDefGo (d : ℚ) (ffl : Bool) (total : ℕ) :
    ℕ → List (List String) → Option (List (List BlockArgs))
  | _, [] => some []
  | idx, stage_strings :: rest =>
      match stage_strings.mapM _decode_str_def with
      | none => none
      | some decoded =>
          match decoded.mapM popRepeat with
          | none => none
          | some pairs =>
              let stage_args := pairs.map Prod.fst
              let repeats := pairs.map Prod.snd
              let sa := if ffl ∧ (idx = 0 ∨ idx = total - 1) then stage_args
                        else _scale_stage_depth stage_args repeats d
              match decodeBlockDefGo d ffl total (idx + 1) rest with
              | none => none
              | some restArgs => some (sa :: restArgs)

/-- Embedding of `EfficientNet._decode_block_def(fix_first_last)`
(lines 381-392): decode every stage string, pop the repeat counts, and scale
each stage's depth unless `fix_first_last` is set and the stage is the first
or last one. -/
def _decode_block_def (block_def : List (List String)) (d : ℚ) (fix_first_last : Bool) :
    Option (List (List BlockArgs)) :=
  decodeBlockDefGo d fix_first_last block_def.length 0 block_def

/-! ### Block instantiation: `_make_layer` / `_make_blocks` (lines 438-481) -/

/-- The constructor arguments a block instance is built with by `_make_layer`
(lines 458-481), restricted to the fields the surrounding logic computes:
`in_channel` is the running channel counter, `out_channel` the rounded target,
`stride` the (possibly overridden) stride, `drop_path_rate` the linearly
interpolated rate `global_drop_path_rate * layer_idx / total_layers`.
(`kernel_size`, `exp_ratio`, `se_ratio`, `pad_type`, `norm_kwargs`,
`act_layer` and the rounded `mid_channel` are forwarded unchanged and carry no
logic here.) -/
structure LayerSpec where
  block_type : String
  in_channel : ℤ
  out_channel : ℤ
  stride : ℤ
  drop_path_rate : ℚ
  deriving DecidableEq

/-- Embedding of `EfficientNet._make_layer(layer_args)` (lines 458-481) with
the object state (`self._round_channel`, global drop-path rate, running
`in_channel`, `layer_idx`, `total_layers`) passed explicitly.  `none` models
the `KeyError` on a missing `out_channel`, the `KeyError` of the
`block_map[block_type]` lookup (line 477) for an unknown block type, and the
`assert kernel_size in [3, 5]` inside the block constructors (a missing
kernel size or stride falls back to the constructors' defaults 3 and 1). -/
def _make_layer (rc : ℤ → ℤ) (gdpr : ℚ) (total_layers : ℕ) (in_channel : ℤ) (layer_idx : ℕ)
    (a : BlockArgs) : Option (LayerSpec × ℤ) :=
  match a.out_channel with
  | none => none
  | some oc =>
      if (a.block_type = "ds" ∨ a.block_type = "ir" ∨ a.block_type = "er")
          ∧ (a.kernel_size.getD 3 = 3 ∨ a.kernel_size.getD 3 = 5) then
        some ({ block_type := a.block_type, in_channel := in_channel, out_channel := rc oc,
                stride := a.stride.getD 1,
                drop_path_rate := gdpr * (layer_idx : ℚ) / (total_layers : ℚ) }, rc oc)
      else none

/-- The `for idx, args in enumerate(stage_args)` loop of `_make_blocks`
(lines 448-453): `assert args['stride'] in (1, 2)` (`KeyError`/`AssertionError`
= `none`), every instance after the first is forced to `stride = 1`, and each
layer updates the running `in_channel` and `layer_idx`. -/
def _make_blocks_stage (rc : ℤ → ℤ) (gdpr : ℚ) (total_layers : ℕ) :
    Bool → ℤ → ℕ → List BlockArgs → Option (List LayerSpec × ℤ × ℕ)
  | _, in_ch, li, [] => some ([], in_ch, li)
  | isFirst, in_ch, li, a :: rest =>
      match a.stride with
      | none => none
      | some st =>
          if st = 1 ∨ st = 2 then
            match _make_layer rc gdpr total_layers in_ch li
                (if isFirst then a else { a with stride := some 1 }) with
            | none => none
            | some (ls, in_ch2) =>
                match _make_blocks_stage rc gdpr total_layers false in_ch2 (li + 1) rest with
                | none => none
                | some (lss, in_ch3, li2) => some (ls :: lss, in_ch3, li2)
          else none

/-- The `for stage_args in blocks_args` loop of `_make_blocks`
(lines 445-455): builds each stage and appends the running `in_channel` to
`self.out_channels` after the stage (line 455).  Returns the built stages, the
appended per-stage channel record, and the final running `in_channel`. -/
def _make_blocks_go (rc : ℤ → ℤ) (gdpr : ℚ) (total_layers : ℕ) :
    ℤ → ℕ → List (List BlockArgs) → Option (List (List LayerSpec) × List ℤ × ℤ)
  | in_ch, _, [] => some ([], [], in_ch)
  | in_ch, li, stage :: rest =>
      match _make_blocks_stage rc gdpr total_layers true in_ch li stage with
      | none => none
      | some (ls, in_ch2, li2) =>
          match _make_blocks_go rc gdpr total_layers in_ch2 li2 rest with
          | none => none
          | some (blocks, ocs, in_ch3) => some (ls :: blocks, in_ch2 :: ocs, in_ch3)

/-- Embedding of `EfficientNet._make_blocks(in_channel)` (lines 438-456) for
already-decoded `blocks_args`: `total_layers = sum(len(x) for x in
blocks_args)` (line 442), `layer_idx` starts at 0, the running `in_channel`
starts at the stem size. -/
def _make_blocks (rc : ℤ → ℤ) (gdpr : ℚ) (stem : ℤ) (blocks_args : List (List BlockArgs)) :
    Option (List (List LayerSpec) × List ℤ × ℤ) :=
  _make_blocks_go rc gdpr (blocks_args.map List.length).sum stem 0 blocks_args

/-- The `self.out_channels` list at the end of `EfficientNet.__init__`
(lines 356, 370): `[stem_size]`, extended per stage inside `_make_blocks`,
then extended with `[self.num_features, num_classes]`. -/
def efficientnet_out_channels (rc : ℤ → ℤ) (gdpr : ℚ) (stem_size : ℤ)
    (blocks_args : List (List BlockArgs)) (num_features num_classes : ℤ) : Option (List ℤ) :=
  (_make_blocks rc gdpr stem_size blocks_args).map
    (fun r => stem_size :: r.2.1 ++ [num_features, num_classes])

/-! ### Block library: the three block variants (lines 148-329) -/

/-- Symbolic tensor expressions: one constructor per sub-module application
appearing in the three blocks' `forward` methods, plus the additive skip. -/
inductive FExpr where
  | input : FExpr
  | conv_dw : FExpr → FExpr
  | bn1 : FExpr → FExpr
  | act1 : FExpr → FExpr
  | se : FExpr → FExpr
  | conv_pw : FExpr → FExpr
  | bn2 : FExpr → FExpr
  | act2 : FExpr → FExpr
  | conv_pwl : FExpr → FExpr
  | bn3 : FExpr → FExpr
  | conv_exp : FExpr → FExpr
  | drop_path : FExpr → FExpr
  | add : FExpr → FExpr → FExpr
  deriving DecidableEq

/-- The `self.drop_path` member: `DropPath(drop_path_rate)` when
`drop_path_rate > 0`, `nn.Identity()` otherwise (lines 180-183, 243-246,
306-309). -/
def apply_drop_path (drop_path_rate : ℚ) (t : FExpr) : FExpr :=
  if 0 < drop_path_rate then FExpr.drop_path t else t

/-- Embedding of `DepthwiseSeparableConv.has_residual` (line 164):
`(stride == 1 and in_channel == out_channel) and not noskip`. -/
def ds_has_residual (in_channel out_channel stride : ℤ) (noskip : Bool) : Bool :=
  (stride == 1 && in_channel == out_channel) && !noskip

/-- Embedding of `InvertedResidualBlock.has_residual` (line 218):
`(in_channel == out_channel and stride == 1) and not noskip`. -/
def ir_has_residual (in_channel out_channel stride : ℤ) (noskip : Bool) : Bool :=
  (in_channel == out_channel && stride == 1) && !noskip

/-- Embedding of `EdgeResidual.has_residual` (line 285):
`(in_channel == out_channel and stride == 1) and not noskip`. -/
def er_has_residual (in_channel out_channel stride : ℤ) (noskip : Bool) : Bool :=
  (in_channel == out_channel && stride == 1) && !noskip

/-- Embedding of `DepthwiseSeparableConv.forward` (lines 185-200) as a symbolic
expression. -/
def ds_forward (in_channel out_channel stride : ℤ) (noskip : Bool)
    (drop_path_rate : ℚ) : FExpr :=
  let residual := FExpr.input
  let x := FExpr.conv_dw FExpr.input
  let x := FExpr.bn1 x
  let x := FExpr.act1 x
  let x := FExpr.se x
  let x := FExpr.conv_pw x
  let x := FExpr.bn2 x
  if ds_has_residual in_channel out_channel stride noskip then
    FExpr.add (apply_drop_path drop_path_rate x) residual
  else x

/-- Embedding of `InvertedResidualBlock.forward` (lines 248-271) as a symbolic
expression. -/
def ir_forward (in_channel out_channel stride : ℤ) (noskip : Bool)
    (drop_path_rate : ℚ) : FExpr :=
  let residual := FExpr.input
  let x := FExpr.conv_pw FExpr.input
  let x := FExpr.bn1 x
  let x := FExpr.act1 x
  let x := FExpr.conv_dw x
  let x := FExpr.bn2 x
  let x := FExpr.act2 x
  let x := FExpr.se x
  let x := FExpr.conv_pwl x
  let x := FExpr.bn3 x
  if ir_has_residual in_channel out_channel stride noskip then
    FExpr.add (apply_drop_path drop_path_rate x) residual
  else x

/-- Embedding of `EdgeResidual.forward` (lines 311-329) as a symbolic expression. -/
def er_forward (in_channel out_channel stride : ℤ) (noskip : Bool)
    (drop_path_rate : ℚ) : FExpr :=
  let residual := FExpr.input
  let x := FExpr.conv_exp FExpr.input
  let x := FExpr.bn1 x
  let x := FExpr.act1 x
  let x := FExpr.se x
  let x := FExpr.conv_pwl x
  let x := FExpr.bn2 x
  if er_has_residual in_channel out_channel stride noskip then
    FExpr.add (apply_drop_path drop_path_rate x) residual
  else x

/-- The non-skip branch of `DepthwiseSeparableConv.forward`. -/
def ds_branch : FExpr :=
  FExpr.bn2 (FExpr.conv_pw (FExpr.se (FExpr.act1 (FExpr.bn1 (FExpr.conv_dw FExpr.input)))))

/-- The non-skip branch of `InvertedResidualBlock.forward`. -/
def ir_branch : FExpr :=
  FExpr.bn3 (FExpr.conv_pwl (FExpr.se (FExpr.act2 (FExpr.bn2 (FExpr.conv_dw
    (FExpr.act1 (FExpr.bn1 (FExpr.conv_pw FExpr.input))))))))

/-- The non-skip branch of `EdgeResidual.forward`. -/
def er_branch : FExpr :=
  FExpr.bn2 (FExpr.conv_pwl (FExpr.se (FExpr.act1 (FExpr.bn1 (FExpr.conv_exp FExpr.input)))))

/-! ### Stage partitioner: `_efficientnet_stages` (lines 895-929) -/

/-- NumPy integer indexing on a 1-d array: negative indices count from the
end, out-of-range indices raise `IndexError` (= `none`). -/
def npIndex (l : List ℤ) (i : ℤ) : Option ℤ :=
  let j := if i < 0 then (l.length : ℤ) + i else i
  if 0 ≤ j ∧ j < (l.length : ℤ) then l.get? j.toNat else none

/-- Embedding of `_efficientnet_stages(network)` (lines 895-929), with the
network represented by its `out_channels` record, its stem modules
(`conv_stem`, `bn1`, `act1`) and its top-level stage list `blocks`.
Evaluation order follows the source: the channel selection
`np.array(out_channels[1:-2])[[0,1,2,4,-1]]` runs first (it can raise
`IndexError`), then the 6/7-stage check (line 904-913, `RuntimeError`
otherwise), then the five feature groups are assembled. -/
def _efficientnet_stages {β : Type} (out_channels : List ℤ) (stem : List β) (blocks : List β) :
    Option (List (List β) × List ℤ) :=
  let blocks_channels := ((out_channels.drop 1).dropLast).dropLast
  match ([0, 1, 2, 4, -1] : List ℤ).mapM (npIndex blocks_channels) with
  | none => none
  | some channels =>
      match (if blocks.length = 6 then (blocks.get? 5).map (fun b => [b])
             else if blocks.length = 7 then
               match blocks.get? 5, blocks.get? 6 with
               | some b5, some b6 => some [b5, b6]
               | _, _ => none
             else none) with
      | none => none
      | some last_stage =>
          match blocks.get? 0, blocks.get? 1, blocks.get? 2, blocks.get? 3, blocks.get? 4 with
          | some b0, some b1, some b2, some b3, some b4 =>
              some ([stem ++ [b0], [b1], [b2], [b3, b4], last_stage], channels)
          | _, _, _, _, _ => none

/-! ### `get_backbone` override handling (lines 932-941, 507-520) -/

/-- The caller-facing override mapping; only the `drop_path_rate` key carries
logic reaching the block builder. -/
structure OverrideParams where
  drop_path_rate : Option ℚ := none
  deriving DecidableEq

/-- The `global_params` dict (lines 558-565 etc.), restricted to the fields
the modelled build logic reads (`act_layer` and `norm_kwargs` are opaque
pass-through values). -/
structure GlobalParams where
  channel_divisor : ℤ
  channel_min : Option ℤ
  drop_path_rate : ℚ
  pad_type : String
  deriving DecidableEq

/-- Lines 937-939 of `get_backbone`: `kwargs['override_params'] =
{'drop_path_rate': 0.0}` — whatever override mapping the caller supplied is
replaced wholesale before construction. -/
def get_backbone_override_params (_caller_override : Option OverrideParams) : OverrideParams :=
  { drop_path_rate := some 0 }

/-- The `global_params.update(dict(override_params))` step of `_create_model`
(lines 512-515), restricted to the modelled fields. -/
def update_global_params (gp : GlobalParams) (ov : OverrideParams) : GlobalParams :=
  { gp with drop_path_rate := ov.drop_path_rate.getD gp.drop_path_rate }

/-! ### Vocabulary used by the claim statements below -/

/-- The tokens after the block-type token of a stage string
(`stage_data[1:]`). -/
def stageTokens (s : String) : List (List Char) :=
  match splitOnChar '_' s.data with
  | [] => []
  | _ :: ops => ops

/-- A key/value token (it has a digit, so it is not a bare flag) that is not
`noskip` and whose key is outside the recognized set
`{r, k, s, e, m, c, se}`. -/
def isUnknownKeyToken (t : List Char) : Bool :=
  decide (t ≠ "noskip".toList) && decide ((firstDigitSplit t).2 ≠ []) &&
    decide ((firstDigitSplit t).1 ∉
      ["r".toList, "k".toList, "s".toList, "e".toList, "m".toList, "c".toList, "se".toList])

/-- Some token of the stage string is a key/value token with an unrecognized
key. -/
def hasUnknownKey (s : String) : Bool :=
  (stageTokens s).any isUnknownKeyToken

/-- Some token of the stage string is a key/value token with key `r`
(i.e. the string declares a repeat count). -/
def declaresRepeat (s : String) : Bool :=
  (stageTokens s).any
    (fun t => decide (t ≠ "noskip".toList) && decide ((firstDigitSplit t).1 = "r".toList))

/-- Each consecutive pair of constructed layers inside a stage is chained:
every instance after the first has `stride = 1` and its `in_channel` equal to
the previous instance's (rounded) `out_channel`. -/
def stageChained : List LayerSpec → Bool
  | a :: b :: rest =>
      (b.stride == 1 && b.in_channel == a.out_channel) && stageChained (b :: rest)
  | _ => true

/-- The first constructed instance of a stage carries the stage's configured
stride (the `stride` value of its first decoded substage spec). -/
def firstStrideConfigured : List BlockArgs → List LayerSpec → Bool
  | a :: _, l :: _ => l.stride == a.stride.getD 1
  | _, _ => true

/-- Extension of `firstStrideConfigured` to every stage, pairing decoded stage specs with
built stages. -/
def stagesFirstStride : List (List BlockArgs) → List (List LayerSpec) → Bool
  | sa :: ra, sb :: rb => firstStrideConfigured sa sb && stagesFirstStride ra rb
  | _, _ => true

/-- The layers of a stage, chained from a given input channel count: the first
layer's `in_channel` is the given count, and each later layer's `in_channel`
is the previous layer's `out_channel`. -/
def chainedFrom (c : ℤ) : List LayerSpec → Prop
  | [] => True
  | l :: ls => l.in_channel = c ∧ chainedFrom l.out_channel ls

/-- The (rounded) `out_channel` of the last block of each built stage. -/
def stageLastChannels (blocks : List (List LayerSpec)) : List (Option ℤ) :=
  blocks.map (fun stage => stage.getLast?.map LayerSpec.out_channel)

/-! ### Helper lemmas -/

theorem pyRound_intCast (z : ℤ) : pyRound (z : ℚ) = z := by
  simp [pyRound]

theorem pyRound_le {q : ℚ} {z : ℤ} (h : q ≤ (z : ℚ)) : pyRound q ≤ z := by
  have hf : ⌊q⌋ ≤ z := by
    have := Int.floor_le_floor h
    simpa using this
  have hfl : (⌊q⌋ : ℚ) ≤ q := Int.floor_le q
  unfold pyRound
  split_ifs with h1 h2 h3
  · exact hf
  · by_contra hc
    push_neg at hc
    have hz : z ≤ ⌊q⌋ := by omega
    have hq : q ≤ (⌊q⌋ : ℚ) := le_trans h (by exact_mod_cast hz)
    linarith
  · exact hf
  · by_contra hc
    push_neg at hc
    have hz : z ≤ ⌊q⌋ := by omega
    have hq : q ≤ (⌊q⌋ : ℚ) := le_trans h (by exact_mod_cast hz)
    have h4 : (1 : ℚ)/2 ≤ q - ⌊q⌋ := not_lt.mp h1
    linarith

theorem one_le_listSum (l : List ℤ) (h : l ≠ []) (h2 : ∀ r ∈ l, 1 ≤ r) : 1 ≤ l.sum := by
  cases l with
  | nil => exact absurd rfl h
  | cons r rest =>
    have h0 : 1 ≤ r := h2 r (by simp)
    have h1 : 0 ≤ rest.sum := by
      apply List.sum_nonneg
      intro x hx
      exact le_trans zero_le_one (h2 x (by simp [hx]))
    rw [List.sum_cons]
    omega

theorem scaleLoopRev_spec (l : List ℤ) : ∀ (n m : ℤ), l ≠ [] → (∀ r ∈ l, 1 ≤ r) →
    n = l.sum → n ≤ m →
    (∀ x ∈ scaleLoopRev l n m, 1 ≤ x) ∧ (scaleLoopRev l n m).sum = m := by
  induction l with
  | nil => intro n m h; exact absurd rfl h
  | cons r rest ih =>
    intro n m _ h2 hn h3
    have hr : 1 ≤ r := h2 r (by simp)
    rw [List.sum_cons] at hn
    by_cases hrest : rest = []
    · subst hrest
      simp only [List.sum_nil, add_zero] at hn
      rw [hn] at h3 ⊢
      have hr0 : (r : ℚ) ≠ 0 := by exact_mod_cast (by omega : r ≠ 0)
      have hA : (r : ℚ) / (r : ℚ) * (m : ℚ) = ((m : ℤ) : ℚ) := by field_simp
      simp only [scaleLoopRev, hA, pyRound_intCast]
      have hmax : max 1 m = m := max_eq_right (by omega)
      rw [hmax]
      constructor
      · intro x hx
        simp at hx
        omega
      · simp
    · have hrs1 : 1 ≤ rest.sum :=
        one_le_listSum rest hrest (fun x hx => h2 x (by simp [hx]))
      have hn_pos : (0 : ℚ) < (n : ℚ) := by
        have : (0 : ℤ) < n := by omega
        exact_mod_cast this
      have hA_le : (r : ℚ) / (n : ℚ) * (m : ℚ) ≤ ((m - rest.sum : ℤ) : ℚ) := by
        rw [div_mul_eq_mul_div, div_le_iff₀ hn_pos]
        have c1 : (1 : ℚ) ≤ (r : ℚ) := by exact_mod_cast hr
        have c2 : (1 : ℚ) ≤ ((rest.sum : ℤ) : ℚ) := by exact_mod_cast hrs1
        have c3 : (r : ℚ) + ((rest.sum : ℤ) : ℚ) ≤ (m : ℚ) := by
          have : r + rest.sum ≤ m := by omega
          exact_mod_cast this
        have c4 : (n : ℚ) = (r : ℚ) + ((rest.sum : ℤ) : ℚ) := by
          rw [hn]
          exact Int.cast_add r rest.sum
        have c5 : ((m - rest.sum : ℤ) : ℚ) = (m : ℚ) - ((rest.sum : ℤ) : ℚ) :=
          Int.cast_sub m rest.sum
        rw [c4, c5]
        nlinarith [mul_nonneg (by linarith : (0 : ℚ) ≤ ((rest.sum : ℤ) : ℚ))
          (by linarith : (0 : ℚ) ≤ (m : ℚ) - (r : ℚ) - ((rest.sum : ℤ) : ℚ))]
      have hpr : pyRound ((r : ℚ) / (n : ℚ) * (m : ℚ)) ≤ m - rest.sum := pyRound_le hA_le
      have key : max 1 (pyRound ((r : ℚ) / (n : ℚ) * (m : ℚ))) ≤ m - rest.sum :=
        max_le (by omega) hpr
      simp only [scaleLoopRev]
      have hnr : n - r = rest.sum := by omega
      rw [hnr]
      obtain ⟨hmem, hsum⟩ := ih rest.sum (m - max 1 (pyRound ((r : ℚ) / (n : ℚ) * (m : ℚ))))
        hrest (fun x hx => h2 x (by simp [hx])) rfl (by omega)
      constructor
      · intro x hx
        rcases List.mem_cons.mp hx with hx | hx
        · subst hx; exact le_max_left _ _
        · exact hmem x hx
      · rw [List.sum_cons, hsum]
        ring

/-! ### Claim theorems -/

/-- C1 counterexample: for the stage `[1, 1]` and depth multiplier `1/2`
(which is `> 0`), the scaled repeats are `[1, 1]`: their sum is `2`, but
`ceil((1+1) * 1/2) = 1`, so the output sum is NOT exactly the claimed
ceiling. -/
theorem c1_counterexample :
    ¬ ((_scale_stage_depth_repeats [1, 1] (1/2)).sum =
        ⌈((([1, 1] : List ℤ).sum : ℚ)) * (1/2)⌉) := by with_unfolding_all decide

/-- C1 (amended): for every non-empty repeat list with entries `≥ 1` and every
depth multiplier `d ≥ 1`, `_scale_stage_depth` returns scaled repeat counts
that are all `≥ 1` and sum exactly to `ceil(sum(repeats) * d)`.  (For
`0 < d < 1` the `max(1, ·)` floor can push the sum above the ceiling.) -/
theorem c1_scale_stage_depth (repeats : List ℤ) (d : ℚ) (h1 : repeats ≠ [])
    (h2 : ∀ r ∈ repeats, 1 ≤ r) (hd : 1 ≤ d) :
    (∀ x ∈ _scale_stage_depth_repeats repeats d, 1 ≤ x) ∧
      (_scale_stage_depth_repeats repeats d).sum = ⌈((repeats.sum : ℤ) : ℚ) * d⌉ := by
  have hrev_ne : repeats.reverse ≠ [] := by simpa using h1
  have hrev_mem : ∀ r ∈ repeats.reverse, 1 ≤ r := fun r hr => h2 r (List.mem_reverse.mp hr)
  have hsum_rev : repeats.reverse.sum = repeats.sum := List.sum_reverse repeats
  have hs1 : 1 ≤ repeats.sum := one_le_listSum repeats h1 h2
  have hceil : repeats.sum ≤ ⌈((repeats.sum : ℤ) : ℚ) * d⌉ := by
    have hq : ((repeats.sum : ℤ) : ℚ) ≤ ((repeats.sum : ℤ) : ℚ) * d := by
      have hq1 : (1 : ℚ) ≤ ((repeats.sum : ℤ) : ℚ) := by exact_mod_cast hs1
      nlinarith
    calc (repeats.sum : ℤ) = ⌈(((repeats.sum : ℤ) : ℚ))⌉ := (Int.ceil_intCast _).symm
      _ ≤ ⌈((repeats.sum : ℤ) : ℚ) * d⌉ := Int.ceil_le_ceil hq
  obtain ⟨hmem, hsum⟩ := scaleLoopRev_spec repeats.reverse repeats.sum
    ⌈((repeats.sum : ℤ) : ℚ) * d⌉ hrev_ne hrev_mem hsum_rev.symm hceil
  unfold _scale_stage_depth_repeats
  constructor
  · intro x hx
    exact hmem x (List.mem_reverse.mp hx)
  · rw [List.sum_reverse]
    exact hsum

/-- C1 witness: `[1, 2]` at depth multiplier `3/2` scales to `[2, 3]`, whose
sum is `ceil(3 * 3/2) = 5`. -/
theorem c1_witness :
    (_scale_stage_depth_repeats [1, 2] (3/2)).sum = ⌈((([1, 2] : List ℤ).sum : ℤ) : ℚ) * (3/2)⌉ :=
  (c1_scale_stage_depth [1, 2] (3/2) (by decide) (by decide) (by norm_num)).2

/-- C2 counterexample: on a size-7 axis with kernel 3, stride 2, dilation 1,
the ceil-based formula gives `(ceil(7/2) - 1)*2 + 2 + 1 - 7 = 2`, not 1, and
the split is `(1, 1)`, not `(0, 1)`. -/
theorem c2_counterexample :
    ¬ (get_same_padding 7 3 2 1 = 1 ∧ pad_same_lr 7 3 2 1 = (0, 1)) := by
  with_unfolding_all decide

/-- C2 (amended): dynamic 'same' padding pads a 7x7 input with kernel 3,
stride 2, dilation 1 by a total of 2 per axis, split `(1, 1)` between the
leading and trailing edges. -/
theorem c2_same_padding_7x7 :
    get_same_padding 7 3 2 1 = 2 ∧ pad_same_lr 7 3 2 1 = (1, 1) := by
  with_unfolding_all decide

/-- C3: evaluating the decoder at a single-stage definition whose substage
string declares `r2`, with the fix-first-last policy set, yields a stage with
only ONE block specification — the parsed repeat count is popped and then
discarded for exempted stages — whereas without the exemption (or as the
claim and spec state it) the stage would contain 2.  The second conjunct
shows the same input with `fix_first_last = False` producing 2. -/
theorem c3_fix_first_last_discards_repeats :
    ( _decode_block_def [["ir_r2_k3_s1_e6_c320"]] 1 true).map (fun bs => bs.map List.length)
        = some [1]
    ∧ ( _decode_block_def [["ir_r2_k3_s1_e6_c320"]] 1 false).map (fun bs => bs.map List.length)
        = some [2] := by with_unfolding_all decide

/-- C9: for a numeric (non-string) padding argument, `get_padding` returns the
value unchanged and marks the convolution as static (`dynamic = False`),
whatever the kernel size, stride and dilation are. -/
theorem c9_numeric_padding_passthrough :
    ∀ (p k s d : ℤ), get_padding (PaddingArg.num p) k s d = (p, false) :=
  fun _ _ _ _ => rfl

/-- C5: for each of the three block variants, the residual/skip connection is
present iff `stride == 1` and `in_channel == out_channel` and `noskip` is
false; and the forward pass applies the `drop_path` member to the branch
output before the additive skip exactly when the residual is present (the
branch expressions `ds_branch`/`ir_branch`/`er_branch` being the plain
sequential pipelines). -/
theorem c5_residual_policy (in_channel out_channel stride : ℤ) (noskip : Bool)
    (drop_path_rate : ℚ) :
    (ds_has_residual in_channel out_channel stride noskip = true ↔
      (stride = 1 ∧ in_channel = out_channel ∧ noskip = false))
    ∧ (ir_has_residual in_channel out_channel stride noskip = true ↔
      (stride = 1 ∧ in_channel = out_channel ∧ noskip = false))
    ∧ (er_has_residual in_channel out_channel stride noskip = true ↔
      (stride = 1 ∧ in_channel = out_channel ∧ noskip = false))
    ∧ ds_forward in_channel out_channel stride noskip drop_path_rate =
        (if ds_has_residual in_channel out_channel stride noskip
         then FExpr.add (apply_drop_path drop_path_rate ds_branch) FExpr.input
         else ds_branch)
    ∧ ir_forward in_channel out_channel stride noskip drop_path_rate =
        (if ir_has_residual in_channel out_channel stride noskip
         then FExpr.add (apply_drop_path drop_path_rate ir_branch) FExpr.input
         else ir_branch)
    ∧ er_forward in_channel out_channel stride noskip drop_path_rate =
        (if er_has_residual in_channel out_channel stride noskip
         then FExpr.add (apply_drop_path drop_path_rate er_branch) FExpr.input
         else er_branch) := by
  refine ⟨?_, ?_, ?_, rfl, rfl, rfl⟩
  · simp only [ds_has_residual, Bool.and_eq_true, beq_iff_eq, Bool.not_eq_true']
    tauto
  · simp only [ir_has_residual, Bool.and_eq_true, beq_iff_eq, Bool.not_eq_true']
    tauto
  · simp only [er_has_residual, Bool.and_eq_true, beq_iff_eq, Bool.not_eq_true']
    tauto

theorem applyToken_unknown {t : List Char} (h : isUnknownKeyToken t = true) (a : BlockArgs) :
    applyToken a t = none := by
  simp only [isUnknownKeyToken, Bool.and_eq_true, decide_eq_true_eq, List.mem_cons,
    List.not_mem_nil, or_false, not_or] at h
  obtain ⟨⟨h1, h2⟩, h3, h4, h5, h6, h7, h8, h9⟩ := h
  simp only [applyToken]
  split_ifs with g1
  · exact absurd g1 h1
  · rfl

theorem applyTokens_of_bad {ts : List (List Char)} {t : List Char} (ht : t ∈ ts)
    (hbad : ∀ a, applyToken a t = none) : ∀ a, applyTokens a ts = none := by
  induction ts with
  | nil => cases ht
  | cons u us ih =>
    intro a
    rcases List.mem_cons.mp ht with h | h
    · subst h
      simp [applyTokens, hbad a]
    · simp only [applyTokens]
      cases hu : applyToken a u with
      | none => rfl
      | some a2 => exact ih h a2

theorem applyToken_preserves_repeat {t : List Char} {a a2 : BlockArgs}
    (hnr : t = "noskip".toList ∨ (firstDigitSplit t).1 ≠ "r".toList)
    (h : applyToken a t = some a2) : BlockArgs.repeat' a2 = BlockArgs.repeat' a := by
  by_cases h0 : t = "noskip".toList
  · simp only [applyToken, if_pos h0, Option.some.injEq] at h
    rw [← h]
  · have hk : (firstDigitSplit t).1 ≠ "r".toList := hnr.resolve_left h0
    simp only [applyToken, if_neg h0] at h
    by_cases hv : (firstDigitSplit t).2 = []
    · rw [if_pos hv] at h
      simp at h
    · rw [if_neg hv, if_neg hk] at h
      split_ifs at h
      all_goals
        first
          | (obtain ⟨v, -, hva⟩ := Option.map_eq_some'.mp h; rw [← hva])
          | simp at h

theorem applyTokens_preserves_repeat {ts : List (List Char)} :
    (∀ t ∈ ts, t = "noskip".toList ∨ (firstDigitSplit t).1 ≠ "r".toList) →
    ∀ a a2, applyTokens a ts = some a2 → BlockArgs.repeat' a2 = BlockArgs.repeat' a := by
  induction ts with
  | nil =>
    intro _ a a2 h
    simp only [applyTokens, Option.some.injEq] at h
    rw [← h]
  | cons u us ih =>
    intro hall a a2 h
    simp only [applyTokens] at h
    cases hu : applyToken a u with
    | none =>
      rw [hu] at h
      simp at h
    | some a1 =>
      rw [hu] at h
      have e1 := applyToken_preserves_repeat (hall u (by simp)) hu
      have e2 := ih (fun t ht => hall t (by simp [ht])) a1 a2 h
      rw [e2, e1]

/-- C6: decoding a stage string fails whenever some key/value token carries a
key outside `{r, k, s, e, m, c, se}` (with `noskip` the only bare flag), fails
whenever no token declares a repeat count (`r`), and every successful decode
carries a repeat count. -/
theorem c6_decode_errors (s : String) :
    (hasUnknownKey s = true → _decode_str_def s = none)
    ∧ (declaresRepeat s = false → _decode_str_def s = none)
    ∧ (∀ a, _decode_str_def s = some a → (BlockArgs.repeat' a).isSome = true) := by
  refine ⟨?_, ?_, ?_⟩
  · intro hu
    rcases hsp : splitOnChar '_' s.data with _ | ⟨bt, ops⟩
    · simp [_decode_str_def, hsp]
    · simp only [hasUnknownKey, stageTokens, hsp] at hu
      obtain ⟨t, ht, hbad⟩ := List.any_eq_true.mp hu
      simp only [_decode_str_def, hsp,
        applyTokens_of_bad ht (applyToken_unknown hbad) { block_type := String.mk bt }]
  · intro hd
    rcases hsp : splitOnChar '_' s.data with _ | ⟨bt, ops⟩
    · simp [_decode_str_def, hsp]
    · simp only [declaresRepeat, stageTokens, hsp, List.any_eq_false] at hd
      have hall : ∀ t ∈ ops, t = "noskip".toList ∨ (firstDigitSplit t).1 ≠ "r".toList := by
        intro t ht
        have hx := hd t ht
        by_cases h0 : t = "noskip".toList
        · exact Or.inl h0
        · refine Or.inr (fun hk => hx ?_)
          simp [hk]
          simpa using h0
      simp only [_decode_str_def, hsp]
      cases hap : applyTokens { block_type := String.mk bt } ops with
      | none => rfl
      | some a2 =>
        have hr2 := applyTokens_preserves_repeat hall _ a2 hap
        show (if (BlockArgs.repeat' a2).isSome = true then some a2 else none) = none
        simp only [hr2]
        rfl
  · intro a h
    unfold _decode_str_def at h
    split at h
    next => exact absurd h (by simp)
    next bt ops =>
      split at h
      next => exact absurd h (by simp)
      next a2 heq =>
        split at h
        next hrep =>
          cases h
          exact hrep
        next => exact absurd h (by simp)

/-- C6 witness: `"ir_x2"` (unknown key `x`) and `"ir_k3"` (no repeat key)
both fail to decode. -/
theorem c6_witness :
    _decode_str_def "ir_x2" = none ∧ _decode_str_def "ir_k3" = none :=
  ⟨(c6_decode_errors "ir_x2").1 (by decide),
   (c6_decode_errors "ir_k3").2.1 (by decide)⟩

/-- C7: the stage partitioner fails for every network whose number of
top-level stages is not 6 or 7 (for fewer than 5 stages the failure is the
`IndexError` of the channel selection, otherwise the explicit
`RuntimeError`); for 6 or 7 stages it returns exactly 5 feature groups
together with the per-stage output-channel record `out_channels[1:-2]`
selected at indices `[0, 1, 2, 4, -1]`. -/
theorem c7_stages_partition {β : Type} (out_channels : List ℤ) (stem : List β)
    (blocks : List β) :
    (blocks.length ≠ 6 ∧ blocks.length ≠ 7 →
      _efficientnet_stages out_channels stem blocks = none)
    ∧ ((blocks.length = 6 ∨ blocks.length = 7) →
        out_channels.length = blocks.length + 3 →
        (_efficientnet_stages out_channels stem blocks).map (fun r => (r.1.length, r.2)) =
          some (5,
            [(((out_channels.drop 1).dropLast).dropLast).getD 0 0,
             (((out_channels.drop 1).dropLast).dropLast).getD 1 0,
             (((out_channels.drop 1).dropLast).dropLast).getD 2 0,
             (((out_channels.drop 1).dropLast).dropLast).getD 4 0,
             (((out_channels.drop 1).dropLast).dropLast).getD
               ((((out_channels.drop 1).dropLast).dropLast).length - 1) 0])) := by
  constructor
  · rintro ⟨h6, h7⟩
    simp only [_efficientnet_stages]
    cases hch : ([0, 1, 2, 4, -1] : List ℤ).mapM
        (npIndex (((out_channels.drop 1).dropLast).dropLast)) with
    | none => rfl
    | some channels =>
      rw [if_neg h6, if_neg h7]
  · intro h67 hlen
    rcases h67 with h6 | h7
    · rcases blocks with _ | ⟨b0, _ | ⟨b1, _ | ⟨b2, _ | ⟨b3, _ | ⟨b4, _ | ⟨b5, bl⟩⟩⟩⟩⟩⟩ <;>
        simp only [List.length_cons, List.length_nil] at h6 <;> try omega
      have hbl : bl = [] := List.length_eq_zero.mp (by omega)
      subst hbl
      simp only [List.length_cons, List.length_nil] at hlen
      rcases out_channels with _ | ⟨o0, _ | ⟨o1, _ | ⟨o2, _ | ⟨o3, _ | ⟨o4, _ | ⟨o5,
        _ | ⟨o6, _ | ⟨o7, _ | ⟨o8, oc⟩⟩⟩⟩⟩⟩⟩⟩⟩ <;>
        simp only [List.length_cons, List.length_nil] at hlen <;> try omega
      have hoc : oc = [] := List.length_eq_zero.mp (by omega)
      subst hoc
      rfl
    · rcases blocks with _ | ⟨b0, _ | ⟨b1, _ | ⟨b2, _ | ⟨b3, _ | ⟨b4, _ | ⟨b5,
        _ | ⟨b6, bl⟩⟩⟩⟩⟩⟩⟩ <;>
        simp only [List.length_cons, List.length_nil] at h7 <;> try omega
      have hbl : bl = [] := List.length_eq_zero.mp (by omega)
      subst hbl
      simp only [List.length_cons, List.length_nil] at hlen
      rcases out_channels with _ | ⟨o0, _ | ⟨o1, _ | ⟨o2, _ | ⟨o3, _ | ⟨o4, _ | ⟨o5,
        _ | ⟨o6, _ | ⟨o7, _ | ⟨o8, _ | ⟨o9, oc⟩⟩⟩⟩⟩⟩⟩⟩⟩⟩ <;>
        simp only [List.length_cons, List.length_nil] at hlen <;> try omega
      have hoc : oc = [] := List.length_eq_zero.mp (by omega)
      subst hoc
      rfl

/-- C7 witness: a 6-stage network with a 9-entry channel record partitions
into 5 groups with the channels selected at `[0, 1, 2, 4, -1]`. -/
theorem c7_witness :
    (_efficientnet_stages [32, 16, 24, 40, 80, 112, 192, 1280, 1000] [101, 102, 103]
        ([1, 2, 3, 4, 5, 6] : List ℕ)).map (fun r => (r.1.length, r.2)) =
      some (5, [16, 24, 40, 112, 192]) :=
  (c7_stages_partition [32, 16, 24, 40, 80, 112, 192, 1280, 1000] [101, 102, 103]
    [1, 2, 3, 4, 5, 6]).2 (Or.inl rfl) rfl

theorem make_layer_spec {rc : ℤ → ℤ} {gdpr : ℚ} {tl : ℕ} {in_ch : ℤ} {li : ℕ}
    {a : BlockArgs} {l : LayerSpec} {c : ℤ}
    (h : _make_layer rc gdpr tl in_ch li a = some (l, c)) :
    l.in_channel = in_ch ∧ l.out_channel = c ∧ l.stride = a.stride.getD 1 ∧
      l.drop_path_rate = gdpr * (li : ℚ) / (tl : ℚ) := by
  unfold _make_layer at h
  split at h
  · exact absurd h (by simp)
  · split at h
    · cases h
      exact ⟨rfl, rfl, rfl, rfl⟩
    · exact absurd h (by simp)

theorem make_blocks_stage_spec (rc : ℤ → ℤ) (gdpr : ℚ) (tl : ℕ) :
    ∀ (stage : List BlockArgs) (p : Bool) (in_ch : ℤ) (li : ℕ)
      (ls : List LayerSpec) (c2 : ℤ) (li2 : ℕ),
      _make_blocks_stage rc gdpr tl p in_ch li stage = some (ls, c2, li2) →
      chainedFrom in_ch ls
      ∧ (p = false → ∀ x ∈ ls, x.stride = 1)
      ∧ (ls = [] → c2 = in_ch)
      ∧ (ls ≠ [] → ls.getLast?.map LayerSpec.out_channel = some c2)
      ∧ ls.length = stage.length
      ∧ (gdpr = 0 → ∀ x ∈ ls, x.drop_path_rate = 0)
      ∧ (p = true → firstStrideConfigured stage ls = true)
      ∧ (∀ x ∈ ls.tail, x.stride = 1) := by
  intro stage
  induction stage with
  | nil =>
    intro p in_ch li ls c2 li2 h
    simp only [_make_blocks_stage, Option.some.injEq, Prod.mk.injEq] at h
    obtain ⟨hls, hc2, hli2⟩ := h
    subst hls
    subst hc2
    refine ⟨trivial, by simp, fun _ => rfl, fun hne => absurd rfl hne, rfl, by simp,
      fun _ => rfl, by simp⟩
  | cons a rest ih =>
    intro p in_ch li ls c2 li2 h
    unfold _make_blocks_stage at h
    split at h
    · exact absurd h (by simp)
    next st hst =>
      split at h
      · split at h
        · exact absurd h (by simp)
        next l0 c1 hml =>
          split at h
          · exact absurd h (by simp)
          next ls' c3 li3 hrec =>
            simp only [Option.some.injEq, Prod.mk.injEq] at h
            obtain ⟨hls, hc2, hli2⟩ := h
            subst hls
            subst hc2
            subst hli2
            obtain ⟨ml1, ml2, ml3, ml4⟩ := make_layer_spec hml
            obtain ⟨ih1, ih2, ih3, ih4, ih5, ih6, ih7⟩ :=
              ih false c1 (li + 1) ls' c3 li3 hrec
            refine ⟨?_, ?_, ?_, ?_, ?_, ?_, ?_, ?_⟩
            · exact ⟨ml1, by rw [ml2]; exact ih1⟩
            · intro hp x hx
              rcases List.mem_cons.mp hx with hx | hx
              · subst hx
                subst hp
                simpa using ml3
              · exact ih2 rfl x hx
            · intro habs
              exact absurd habs (by simp)
            · intro _
              by_cases hls : ls' = []
              · subst hls
                simp only [List.getLast?_singleton, Option.map_some']
                rw [ml2, ih3 rfl]
              · rcases ls' with _ | ⟨y, ys⟩
                · exact absurd rfl hls
                · rw [List.getLast?_cons_cons]
                  exact ih4 (by simp)
            · simpa using ih5
            · intro hg x hx
              rcases List.mem_cons.mp hx with hx | hx
              · subst hx
                rw [ml4, hg]
                simp
              · exact ih6 hg x hx
            · intro hp
              subst hp
              simp only [firstStrideConfigured]
              have : l0.stride = a.stride.getD 1 := by simpa using ml3
              simp [this]
            · intro x hx
              exact ih2 rfl x hx
      · exact absurd h (by simp)

theorem stageChained_of_chainedFrom :
    ∀ (ls : List LayerSpec) (c : ℤ), chainedFrom c ls →
      (∀ x ∈ ls.tail, x.stride = 1) → stageChained ls = true := by
  intro ls
  induction ls with
  | nil => intro c _ _; rfl
  | cons l lrest ih =>
    intro c hch ht
    rcases lrest with _ | ⟨y, ys⟩
    · rfl
    · have hys : y.stride = 1 := ht y (by simp)
      have htail : ∀ x ∈ (y :: ys).tail, x.stride = 1 := by
        intro x hx
        refine ht x ?_
        simp only [List.tail_cons] at hx ⊢
        exact List.mem_cons_of_mem y hx
      have hrec := ih l.out_channel hch.2 htail
      simp [stageChained, hys, hch.2.1, hrec]

theorem make_blocks_go_spec (rc : ℤ → ℤ) (gdpr : ℚ) (tl : ℕ) :
    ∀ (blocks_args : List (List BlockArgs)) (in_ch : ℤ) (li : ℕ)
      (blocks : List (List LayerSpec)) (ocs : List ℤ) (c : ℤ),
      _make_blocks_go rc gdpr tl in_ch li blocks_args = some (blocks, ocs, c) →
      (∀ st ∈ blocks, stageChained st = true)
      ∧ stagesFirstStride blocks_args blocks = true
      ∧ ocs.length = blocks_args.length
      ∧ blocks.length = blocks_args.length
      ∧ (gdpr = 0 → ∀ st ∈ blocks, ∀ x ∈ st, x.drop_path_rate = 0)
      ∧ ((∀ sa ∈ blocks_args, sa ≠ []) → stageLastChannels blocks = ocs.map some) := by
  intro blocks_args
  induction blocks_args with
  | nil =>
    intro in_ch li blocks ocs c h
    simp only [_make_blocks_go, Option.some.injEq, Prod.mk.injEq] at h
    obtain ⟨hb, ho, hc⟩ := h
    subst hb
    subst ho
    refine ⟨by simp, rfl, rfl, rfl, by simp, fun _ => rfl⟩
  | cons stage restArgs ih =>
    intro in_ch li blocks ocs c h
    unfold _make_blocks_go at h
    split at h
    · exact absurd h (by simp)
    next ls in_ch2 li2 hstage =>
      split at h
      · exact absurd h (by simp)
      next blocks' ocs' c' hrec =>
        simp only [Option.some.injEq, Prod.mk.injEq] at h
        obtain ⟨hb, ho, hc⟩ := h
        subst hb
        subst ho
        subst hc
        obtain ⟨s1, s2, s3, s4, s5, s6, s7, s8⟩ :=
          make_blocks_stage_spec rc gdpr tl stage true in_ch li ls in_ch2 li2 hstage
        obtain ⟨g1, g2, g3, g4, g5, g6⟩ := ih in_ch2 li2 blocks' ocs' c' hrec
        refine ⟨?_, ?_, ?_, ?_, ?_, ?_⟩
        · intro st hst
          rcases List.mem_cons.mp hst with hst | hst
          · subst hst
            exact stageChained_of_chainedFrom st in_ch s1 s8
          · exact g1 st hst
        · simp only [stagesFirstStride, s7 rfl, g2, Bool.and_self]
        · simpa using g3
        · simpa using g4
        · intro hg st hst x hx
          rcases List.mem_cons.mp hst with hst | hst
          · subst hst
            exact s6 hg x hx
          · exact g5 hg st hst x hx
        · intro hne
          have hstage_ne : stage ≠ [] := hne stage (by simp)
          have hls_ne : ls ≠ [] := by
            intro habs
            have h5 := s5
            rw [habs] at h5
            simp only [List.length_nil] at h5
            exact hstage_ne (List.length_eq_zero.mp h5.symm)
          have h1 : ls.getLast?.map LayerSpec.out_channel = some in_ch2 := s4 hls_ne
          have h2 : stageLastChannels blocks' = ocs'.map some :=
            g6 (fun sa hsa => hne sa (by simp [hsa]))
          simp only [stageLastChannels, List.map_cons] at h2 ⊢
          rw [h1, h2]

/-- C4 counterexample: a stage whose two substages declare different output
channels (16 and 24, channel multiplier 1, divisor 8).  The second built block
receives `in_channel = 16` (the previous instance's rounded out_channel) but
`out_channel = 24`, so a block after the first in a stage need NOT have input
channel count equal to its own output channel count. -/
theorem c4_counterexample :
    (_make_blocks (fun ch => round_channels ch 1 8 none) 0 32
        [[{ block_type := "ir", kernel_size := some 3, stride := some 1,
            out_channel := some 16 },
          { block_type := "ir", kernel_size := some 3, stride := some 1,
            out_channel := some 24 }]]).map
        (fun r => r.1.map (fun st => st.map (fun l => (l.in_channel, l.out_channel))))
      = some [[(32, 16), (16, 24)]] ∧ (16 : ℤ) ≠ 24 := by
  with_unfolding_all decide

/-- C4 (amended): in every successful block instantiation, within every stage
each instance after the first is constructed with `stride = 1` and with
`in_channel` equal to the previous instance's (rounded) `out_channel`, and the
first instance of each stage carries the stage's configured stride.  (The
claim's consequence that such blocks have input = output channel additionally
requires all substages of the stage to share one out_channel, as every
architecture defined in this file does.) -/
theorem c4_stage_chaining (rc : ℤ → ℤ) (gdpr : ℚ) (stem : ℤ)
    (blocks_args : List (List BlockArgs)) (res : List (List LayerSpec) × List ℤ × ℤ)
    (h : _make_blocks rc gdpr stem blocks_args = some res) :
    res.1.all stageChained = true
    ∧ stagesFirstStride blocks_args res.1 = true := by
  obtain ⟨blocks, ocs, c⟩ := res
  unfold _make_blocks at h
  obtain ⟨g1, g2, -, -, -, -⟩ :=
    make_blocks_go_spec rc gdpr ((blocks_args.map List.length).sum) blocks_args stem 0
      blocks ocs c h
  exact ⟨List.all_eq_true.mpr g1, g2⟩

/-- C4 witness: a two-instance stage (stride-2 substage repeated) chains into
`(32 → 16, stride 2)` then `(16 → 16, stride 1)`. -/
theorem c4_witness :
    ([[⟨"ir", 32, 16, 2, 0⟩, ⟨"ir", 16, 16, 1, 0⟩]] : List (List LayerSpec)).all stageChained
        = true
    ∧ stagesFirstStride
        [[{ block_type := "ir", kernel_size := some 3, stride := some 2,
            out_channel := some 16 },
          { block_type := "ir", kernel_size := some 3, stride := some 1,
            out_channel := some 16 }]]
        [[⟨"ir", 32, 16, 2, 0⟩, ⟨"ir", 16, 16, 1, 0⟩]] = true :=
  c4_stage_chaining (fun ch => round_channels ch 1 8 none) 0 32
    [[{ block_type := "ir", kernel_size := some 3, stride := some 2,
        out_channel := some 16 },
      { block_type := "ir", kernel_size := some 3, stride := some 1,
        out_channel := some 16 }]]
    ([[⟨"ir", 32, 16, 2, 0⟩, ⟨"ir", 16, 16, 1, 0⟩]], [16], 16)
    (by with_unfolding_all decide)

/-- C8: `get_backbone` replaces any caller-supplied `override_params` with
`{'drop_path_rate': 0.0}`, so the global drop-path rate seen by the block
builder is 0 and every constructed block receives `drop_path_rate = 0`,
whatever the caller passed. -/
theorem c8_drop_path_disabled (caller : Option OverrideParams) (gp : GlobalParams)
    (rc : ℤ → ℤ) (stem : ℤ) (blocks_args : List (List BlockArgs))
    (res : List (List LayerSpec) × List ℤ × ℤ)
    (h : _make_blocks rc
          (update_global_params gp (get_backbone_override_params caller)).drop_path_rate
          stem blocks_args = some res) :
    (update_global_params gp (get_backbone_override_params caller)).drop_path_rate = 0
    ∧ res.1.all (fun st => st.all (fun l => l.drop_path_rate == 0)) = true := by
  have hz : (update_global_params gp (get_backbone_override_params caller)).drop_path_rate
      = 0 := rfl
  refine ⟨hz, ?_⟩
  obtain ⟨blocks, ocs, c⟩ := res
  unfold _make_blocks at h
  rw [hz] at h
  obtain ⟨-, -, -, -, g5, -⟩ :=
    make_blocks_go_spec rc 0 ((blocks_args.map List.length).sum) blocks_args stem 0
      blocks ocs c h
  rw [List.all_eq_true]
  intro st hst
  rw [List.all_eq_true]
  intro l hl
  simpa using g5 rfl st hst l hl

/-- C8 witness: with a caller override of `drop_path_rate = 1/2` and a global
rate of `1/5`, the built block still has rate 0. -/
theorem c8_witness :
    (update_global_params
        { channel_divisor := 8, channel_min := none, drop_path_rate := 1/5,
          pad_type := "same" }
        (get_backbone_override_params
          (some { drop_path_rate := some (1/2) }))).drop_path_rate = 0
    ∧ ([[⟨"ds", 32, 16, 1, 0⟩]] : List (List LayerSpec)).all
        (fun st => st.all (fun l => l.drop_path_rate == 0)) = true :=
  c8_drop_path_disabled (some { drop_path_rate := some (1/2) })
    { channel_divisor := 8, channel_min := none, drop_path_rate := 1/5,
      pad_type := "same" }
    (fun ch => round_channels ch 1 8 none) 32
    [[{ block_type := "ds", kernel_size := some 3, stride := some 1,
        out_channel := some 16 }]]
    ([[⟨"ds", 32, 16, 1, 0⟩]], [16], 16)
    (by with_unfolding_all decide)

/-- C10: after every successful construction (with every stage non-empty),
`out_channels` is `[stem_size]` followed by exactly one entry per stage — the
rounded `out_channel` of the stage's last block — followed by
`[num_features, num_classes]`; its length is the number of stages plus 3, and
the slice `out_channels[1:-2]` is exactly the per-stage record. -/
theorem c10_out_channels (rc : ℤ → ℤ) (gdpr : ℚ) (stem_size : ℤ)
    (blocks_args : List (List BlockArgs)) (num_features num_classes : ℤ)
    (res : List (List LayerSpec) × List ℤ × ℤ)
    (h : _make_blocks rc gdpr stem_size blocks_args = some res)
    (hne : ∀ sa ∈ blocks_args, sa ≠ []) :
    efficientnet_out_channels rc gdpr stem_size blocks_args num_features num_classes =
        some (stem_size :: res.2.1 ++ [num_features, num_classes])
    ∧ (stem_size :: res.2.1 ++ [num_features, num_classes]).length = blocks_args.length + 3
    ∧ ((stem_size :: res.2.1 ++ [num_features, num_classes]).drop 1).dropLast.dropLast
        = res.2.1
    ∧ stageLastChannels res.1 = res.2.1.map some := by
  obtain ⟨blocks, ocs, c⟩ := res
  have hgo : _make_blocks_go rc gdpr ((blocks_args.map List.length).sum) stem_size 0
      blocks_args = some (blocks, ocs, c) := h
  obtain ⟨-, -, g3, -, -, g6⟩ :=
    make_blocks_go_spec rc gdpr ((blocks_args.map List.length).sum) blocks_args stem_size 0
      blocks ocs c hgo
  refine ⟨?_, ?_, ?_, g6 hne⟩
  · unfold efficientnet_out_channels
    rw [h]
    rfl
  · simp only [List.length_cons, List.length_append, List.length_nil, g3]
  · show ((ocs ++ [num_features, num_classes]).dropLast).dropLast = ocs
    have e1 : ocs ++ [num_features, num_classes]
        = (ocs ++ [num_features]) ++ [num_classes] := by
      simp [List.append_assoc]
    rw [e1, List.dropLast_concat, List.dropLast_concat]

/-- C10 witness: a two-stage build with stem 32, features 1280, classes 1000
yields `out_channels = [32, 16, 24, 1280, 1000]` of length 2 + 3, whose
`[1:-2]` slice `[16, 24]` is the per-stage record of last-block channels. -/
theorem c10_witness :
    efficientnet_out_channels (fun ch => round_channels ch 1 8 none) 0 32
        [[{ block_type := "ds", kernel_size := some 3, stride := some 1,
            out_channel := some 16 }],
         [{ block_type := "ir", kernel_size := some 3, stride := some 2,
            out_channel := some 24 }]] 1280 1000 =
        some ((32 : ℤ) :: [16, 24] ++ [1280, 1000])
    ∧ ((32 : ℤ) :: [16, 24] ++ [1280, 1000]).length = 2 + 3
    ∧ (((32 : ℤ) :: [16, 24] ++ [1280, 1000]).drop 1).dropLast.dropLast = [16, 24]
    ∧ stageLastChannels [[⟨"ds", 32, 16, 1, 0⟩], [⟨"ir", 16, 24, 2, 0⟩]]
        = ([16, 24] : List ℤ).map some :=
  c10_out_channels (fun ch => round_channels ch 1 8 none) 0 32
    [[{ block_type := "ds", kernel_size := some 3, stride := some 1,
        out_channel := some 16 }],
     [{ block_type := "ir", kernel_size := some 3, stride := some 2,
        out_channel := some 24 }]] 1280 1000
    ([[⟨"ds", 32, 16, 1, 0⟩], [⟨"ir", 16, 24, 2, 0⟩]], [16, 24], 24)
    (by with_unfolding_all decide) (by decide)
